import Mathlib

/-!
# Mass-Files-Compare: a shallow embedding of `Source.cpp`

The development embeds the functions of `Mass-Files-Compare/Source.cpp`
(`CompareBuffers`, `CompareFiles`, `CompareFilesThreaded`,
`CompareDirectoriesThreaded`, `CompareDirectories`) together with the small part of
the C++ library they rely on (file sizes, binary input streams, directory listing,
exceptions), and proves properties of them.

Modelling conventions.

* A byte (`char`) is a natural number; only equality of bytes is ever used.
* A buffer (`char*` to a heap block) is the list of the bytes it holds.
* C++ exceptions are the error side of `Except Exn`.
* The three `std::async` tasks of one loop round touch pairwise disjoint objects
  (the two back buffers are only read, each front buffer and each stream is used by
  one task), and every worker thread writes only its own slot and is joined before the
  slots are read; both are therefore embedded as sequential evaluation.
-/

namespace MassFilesCompare

/-! ## Bytes, exceptions, the file system -/

/-- One `char` of a file or of a buffer. -/
abbrev Byte := Nat

/-- The exceptions the program can meet, all derived from `std::exception`; each
carries the text its `what()` returns in the handler. -/
inductive Exn where
  | filesystem_error (what_arg : String)
  | invalid_argument (what_arg : String)
deriving DecidableEq

/-- The text of `e.what()`. -/
def Exn.what : Exn → String
  | .filesystem_error w => w
  | .invalid_argument w => w

deriving instance DecidableEq for Except

/-- A regular file: its bytes, and whether a stream can be opened on it for reading. -/
structure FileNode where
  content : List Byte
  readable : Bool
deriving DecidableEq

/-- A frozen file-system state. `files` gives the regular file at a path, `dirs` the
entry names of a directory in enumeration order, `errorText` the `what()` text of the
`filesystem_error` raised for a path (chosen by the library). -/
structure FileSystem where
  files : String → Option FileNode
  dirs : String → Option (List String)
  errorText : String → String

/-- The call `filesystem::file_size(p)`: the byte count of the file, or a
`filesystem_error` when there is no such file. -/
def file_size (fs : FileSystem) (p : String) : Except Exn Nat :=
  match fs.files p with
  | some f => .ok f.content.length
  | none => .error (.filesystem_error (fs.errorText p))

/-- The range `filesystem::directory_iterator(dir)`: the entry names, or a
`filesystem_error` when the directory cannot be enumerated. The empty path names no
directory, so enumeration fails on it and the loop bodies, which call `dirA.back()`,
only ever run with a non-empty `dirA`. -/
def directory_iterator (fs : FileSystem) (dir : String) : Except Exn (List String) :=
  if dir = "" then .error (.filesystem_error (fs.errorText dir))
  else
    match fs.dirs dir with
    | some entries => .ok entries
    | none => .error (.filesystem_error (fs.errorText dir))

/-! ## Input streams -/

/-- The state of a `std::ifstream` opened in binary mode. `rest` holds the bytes not
yet extracted. `eof` is what `eof()` returns; `read` sets `eofbit` and `failbit`
together and nothing else in the program changes the stream state, so the one flag
stands for both. -/
structure ifstream where
  is_open : Bool
  rest : List Byte
  eof : Bool
deriving DecidableEq

/-- The constructor `ifstream(path, ios_base::binary)`. -/
def ifstream.open (fs : FileSystem) (path : String) : ifstream :=
  match fs.files path with
  | some f => if f.readable then ⟨true, f.content, false⟩ else ⟨false, [], false⟩
  | none => ⟨false, [], false⟩

/-- The call `s.read(buf, count)`: returns the stream afterwards and the new contents
of the buffer. On a stream whose `eofbit|failbit` is set nothing is extracted and the
buffer keeps its bytes. Otherwise up to `count` bytes are stored at the start of the
buffer, the bytes behind them are kept, and `eofbit|failbit` is set when fewer than
`count` bytes were left. -/
def ifstream.read (s : ifstream) (buf : List Byte) (count : Nat) : ifstream × List Byte :=
  if s.eof then (s, buf)
  else
    let got := s.rest.take count
    ({ s with rest := s.rest.drop count, eof := decide (got.length < count) },
      got ++ buf.drop got.length)

/-! ## `CompareBuffers` -/

/-- The loop of `CompareBuffers` started at index `i` with `fuel = maxSize - i` rounds
left: `for (; i < maxSize; ++i) if (a[i] != b[i]) return false;` then `return true`. -/
def CompareBuffers.loop (a b : List Byte) : Nat → Nat → Bool
  | 0, _ => true
  | fuel + 1, i => if a.getD i 0 != b.getD i 0 then false else CompareBuffers.loop a b fuel (i + 1)

/-- The function `CompareBuffers(a, b, maxSize)`. Reading a buffer behind its end is
undefined in the source; the embedding reads `0` there. -/
def CompareBuffers (a b : List Byte) (maxSize : Nat) : Bool :=
  CompareBuffers.loop a b maxSize 0

/-! ## `CompareFiles` -/

/-- The macro `MEM_KB(x)`: `static_cast<UINT64>(x * 1000)`. -/
def MEM_KB (x : Nat) : Nat := (x * 1000) % 2 ^ 64

/-- The constant `uCachesSize = MEM_KB(32)`. -/
def uCachesSize : Nat := MEM_KB 32

/-- A block from `HeapAlloc(..., HEAP_ZERO_MEMORY, uCachesSize)`. -/
def HeapAlloc (size : Nat) : List Byte := List.replicate size 0

/-- The measure that decreases on every round of the read loop. -/
def ifstream.pending (s : ifstream) : Nat := if s.eof then 0 else s.rest.length + 1

/-- The `while` loop of `CompareFiles` (lines 75-99), from its guard on. Returns
`result` and the two back buffers as they stand when the loop is left. -/
def CompareFiles.loop (ifsA ifsB : ifstream)
    (pCacheAFront pCacheABack pCacheBFront pCacheBBack : List Byte) :
    Bool × List Byte × List Byte :=
  if h : ifsA.eof = false ∧ ifsB.eof = false then
    have _more : ifsA.eof = false := h.1
    let aCmp := CompareBuffers pCacheABack pCacheBBack uCachesSize
    let aReadA := ifsA.read pCacheAFront uCachesSize
    let aReadB := ifsB.read pCacheBFront uCachesSize
    if !aCmp then
      -- result = false; break;
      (false, pCacheABack, pCacheBBack)
    else
      -- both reads are awaited, then front and back swap roles on each side
      CompareFiles.loop aReadA.1 aReadB.1 pCacheABack aReadA.2 pCacheBBack aReadB.2
  else (true, pCacheABack, pCacheBBack)
termination_by ifsA.pending
decreasing_by
  have hn : uCachesSize = 32000 := by decide
  simp only [ifstream.read, _more, ifstream.pending, hn]
  by_cases hl : ifsA.rest.length < 32000
  · simp [List.length_take, hl]
  · have : ¬ (min 32000 ifsA.rest.length < 32000) := by omega
    simp [List.length_take, this]
    omega

/-- Lines 66-112 of `CompareFiles`: the comparison of two streams that are open. -/
def CompareFiles.streams (ifsA ifsB : ifstream) : Bool :=
  let pCacheAFront := HeapAlloc uCachesSize
  let pCacheABack := HeapAlloc uCachesSize
  let pCacheBFront := HeapAlloc uCachesSize
  let pCacheBBack := HeapAlloc uCachesSize
  let readA := ifsA.read pCacheABack uCachesSize
  let readB := ifsB.read pCacheBBack uCachesSize
  let r := CompareFiles.loop readA.1 readB.1 pCacheAFront readA.2 pCacheBFront readB.2
  if !CompareBuffers r.2.1 r.2.2 uCachesSize then false else r.1

/-- The function `CompareFiles(fileA, fileB)`. -/
def CompareFiles (fs : FileSystem) (fileA fileB : String) : Except Exn Bool := do
  let fileSizeA ← file_size fs fileA
  let fileSizeB ← file_size fs fileB
  if fileSizeA > fileSizeB then
    return false
  let ifsA := ifstream.open fs fileA
  let ifsB := ifstream.open fs fileB
  if !ifsA.is_open then
    throw (.invalid_argument "Path to file A was invalid.")
  if !ifsB.is_open then
    throw (.invalid_argument "Path to file B was invalid.")
  return CompareFiles.streams ifsA ifsB

/-! ## The worker and the two directory drivers -/

/-- The function `CompareFilesThreaded(fileA, fileB, out)`; the result is the value of
`out` on return. Both the `try` block and the handler end in `return`, so the
assignment behind them is never reached. -/
def CompareFilesThreaded (fs : FileSystem) (fileA fileB : String) (out : String) :
    Except Exn String :=
  tryCatch
    (do
      if !(← CompareFiles fs fileA fileB) then
        return fileA
      return out)
    (fun e => return e.what ++ ": " ++ fileA)

/-- The value of `tmpFullPathA` for one directory entry (lines 153 and 179). -/
def tmpFullPathA (dirA file : String) : String :=
  dirA ++ (if dirA.back == '\\' then "" else "\\") ++ file

/-- The value of `tmpFullPathB` for one directory entry (lines 154 and 180). -/
def tmpFullPathB (dirA dirB file : String) : String :=
  dirB ++ (if dirA.back == '\\' then "" else "\\") ++ file

/-- The second loop of `CompareDirectoriesThreaded` (lines 151-160): the thread
started for the entry at index `i` writes `reservedStrings[i]`. An exception leaving
a thread would end the run; it is the error side. -/
def CompareDirectoriesThreaded.threads (fs : FileSystem) (dirA dirB : String) :
    List String → Nat → List String → Except Exn (List String)
  | [], _, reservedStrings => .ok reservedStrings
  | file :: files, i, reservedStrings => do
    let out ← CompareFilesThreaded fs (tmpFullPathA dirA file) (tmpFullPathB dirA dirB file)
      (reservedStrings.getD i "")
    CompareDirectoriesThreaded.threads fs dirA dirB files (i + 1) (reservedStrings.set i out)

/-- The vector `reservedStrings` of `CompareDirectoriesThreaded` after all threads are
joined (lines 138-160). -/
def CompareDirectoriesThreaded.slots (fs : FileSystem) (dirA dirB : String) :
    Except Exn (List String) := do
  let reservedStrings := (← directory_iterator fs dirA).map (fun _ => "")
  let entries ← directory_iterator fs dirA
  CompareDirectoriesThreaded.threads fs dirA dirB entries 0 reservedStrings

/-- The function `CompareDirectoriesThreaded(dirA, dirB)`. -/
def CompareDirectoriesThreaded (fs : FileSystem) (dirA dirB : String) :
    Except Exn (List String) := do
  let reservedStrings ← CompareDirectoriesThreaded.slots fs dirA dirB
  return reservedStrings.filter (fun s => !s.isEmpty)

/-- The loop of `CompareDirectories` (lines 177-196) over the entries still to visit. -/
def CompareDirectories.loop (fs : FileSystem) (dirA dirB : String) :
    List String → List String → Except Exn (List String)
  | [], result => .ok result
  | file :: files, result => do
    let pathA := tmpFullPathA dirA file
    let pathB := tmpFullPathB dirA dirB file
    let result ← tryCatch
      (do
        if !(← CompareFiles fs pathA pathB) then
          return result ++ [pathA]
        return result)
      (fun e => return result ++ ["" ++ e.what ++ ": " ++ pathA])
    CompareDirectories.loop fs dirA dirB files result

/-- The function `CompareDirectories(dirA, dirB)`. -/
def CompareDirectories (fs : FileSystem) (dirA dirB : String) : Except Exn (List String) := do
  let entries ← directory_iterator fs dirA
  CompareDirectories.loop fs dirA dirB entries []

/-! ## Auxiliary definitions and example file systems -/

/-- The byte found at offset `i` of the data in the back buffer of `A` where the last
read of `A` stored nothing. -/
def stale (F X R : List Byte) (i : Nat) : Byte :=
  if R.length < 32000 then F.getD i 0
  else if R.length < 64000 then X.getD (i - 32000) 0
  else R.getD (i - 64000) 0

/-- The string the worker of one directory entry leaves in its slot. -/
def slotOf (fs : FileSystem) (dirA dirB file : String) : String :=
  match CompareFiles fs (tmpFullPathA dirA file) (tmpFullPathB dirA dirB file) with
  | .ok true => ""
  | .ok false => tmpFullPathA dirA file
  | .error e => e.what ++ ": " ++ tmpFullPathA dirA file

/-- A file system with the directory `a\` holding the one entry `x`, and equal files
at `a\x` and `b\x`. -/
def mirrored : FileSystem where
  files := fun p => if p = "a\\x" then some ⟨[1], true⟩ else if p = "b\\x" then
    some ⟨[1], true⟩ else none
  dirs := fun p => if p = "a\\" then some ["x"] else none
  errorText := fun _ => "no such file"

/-- A file system holding two readable files, at the paths `"A"` and `"B"`. -/
def twoFiles (A B : List Byte) : FileSystem where
  files := fun p => if p = "A" then some ⟨A, true⟩ else if p = "B" then some ⟨B, true⟩ else none
  dirs := fun _ => none
  errorText := fun _ => "no such file"

/-- A file system with an unreadable one-byte file at `"A"` and a readable empty file
at `"B"`. -/
def lockedA : FileSystem where
  files := fun p =>
    if p = "A" then some ⟨[1], false⟩ else if p = "B" then some ⟨[], true⟩ else none
  dirs := fun _ => none
  errorText := fun _ => "no such file"

/-! ## Buffers -/

theorem CompareBuffers.loop_iff (a b : List Byte) (fuel i : Nat) :
    CompareBuffers.loop a b fuel i = true ↔ ∀ j, i ≤ j → j < i + fuel → a.getD j 0 = b.getD j 0 := by
  induction fuel generalizing i with
  | zero => simp [CompareBuffers.loop]; intro j h1 h2; omega
  | succ k ih =>
    simp only [CompareBuffers.loop]
    by_cases h : a.getD i 0 = b.getD i 0
    · simp only [h, bne_self_eq_false, Bool.false_eq_true, if_false, ih]
      constructor
      · intro H j h1 h2
        rcases Nat.eq_or_lt_of_le h1 with e | l
        · subst e; exact h
        · exact H j l (by omega)
      · intro H j h1 h2
        exact H j (by omega) (by omega)
    · have hb : (a.getD i 0 != b.getD i 0) = true := by simpa using h
      simp only [hb, if_true, Bool.false_eq_true, false_iff]
      intro H
      exact h (H i (le_refl _) (by omega))

theorem CompareBuffers_iff (a b : List Byte) (n : Nat) :
    CompareBuffers a b n = true ↔ ∀ j, j < n → a.getD j 0 = b.getD j 0 := by
  unfold CompareBuffers
  rw [CompareBuffers.loop_iff]
  constructor
  · intro H j hj; exact H j (Nat.zero_le _) (by omega)
  · intro H j _ hj; exact H j (by omega)

theorem getD_ext {a b : List Byte} (h : a.length = b.length)
    (H : ∀ j, j < a.length → a.getD j 0 = b.getD j 0) : a = b := by
  apply List.ext_getElem h
  intro j h1 h2
  have := H j h1
  rw [List.getD_eq_getElem _ _ h1, List.getD_eq_getElem _ _ h2] at this
  exact this

theorem CompareBuffers_full (a b : List Byte) (n : Nat) (ha : a.length = n) (hb : b.length = n) :
    CompareBuffers a b n = true ↔ a = b := by
  rw [CompareBuffers_iff]
  constructor
  · intro H
    exact getD_ext (by omega) (fun j hj => H j (by omega))
  · intro H j _; rw [H]


/-! ## Reading into a buffer -/

theorem uCachesSize_eq : uCachesSize = 32000 := by decide

theorem getD_drop (l : List Byte) (n j : Nat) : (l.drop n).getD j 0 = l.getD (n + j) 0 := by
  simp [List.getD_eq_getElem?_getD, List.getElem?_drop]

theorem getD_take (l : List Byte) (n j : Nat) (h : j < n) : (l.take n).getD j 0 = l.getD j 0 := by
  simp [List.getD_eq_getElem?_getD, List.getElem?_take, h]

theorem getD_beyond (l : List Byte) (j : Nat) (h : l.length ≤ j) : l.getD j 0 = 0 := by
  simp [List.getD_eq_getElem?_getD, List.getElem?_eq_none h]

/-- The bytes of a buffer `F` after a read of up to `n` bytes from the data `X`. -/
theorem getD_read (X F : List Byte) (n j : Nat) :
    (X.take n ++ F.drop (X.take n).length).getD j 0 =
      if j < min n X.length then X.getD j 0 else F.getD j 0 := by
  have hl : (X.take n).length = min n X.length := List.length_take _ _
  by_cases h : j < min n X.length
  · rw [if_pos h, List.getD_append _ _ _ _ (by omega), getD_take _ _ _ (by omega)]
  · rw [if_neg h, List.getD_append_right _ _ _ _ (by omega), getD_drop]
    congr 1
    omega

theorem length_read (X F : List Byte) (n : Nat) (hF : F.length = n) :
    (X.take n ++ F.drop (X.take n).length).length = n := by
  simp [List.length_take]
  omega

theorem read_of_not_eof (o : Bool) (R buf : List Byte) (n : Nat) :
    (ifstream.mk o R false).read buf n =
      (⟨o, R.drop n, decide ((R.take n).length < n)⟩, R.take n ++ buf.drop (R.take n).length) := by
  simp [ifstream.read]


theorem loop_exit_left (oA oB : Bool) (RA RB FA XA FB XB : List Byte) (e : Bool) :
    CompareFiles.loop ⟨oA, RA, true⟩ ⟨oB, RB, e⟩ FA XA FB XB = (true, XA, XB) := by
  rw [CompareFiles.loop]
  simp

theorem loop_step (oA oB : Bool) (RA RB FA XA FB XB : List Byte) :
    CompareFiles.loop ⟨oA, RA, false⟩ ⟨oB, RB, false⟩ FA XA FB XB =
      if CompareBuffers XA XB uCachesSize = true then
        CompareFiles.loop ((ifstream.mk oA RA false).read FA uCachesSize).1
          ((ifstream.mk oB RB false).read FB uCachesSize).1
          XA ((ifstream.mk oA RA false).read FA uCachesSize).2
          XB ((ifstream.mk oB RB false).read FB uCachesSize).2
      else (false, XA, XB) := by
  rw [CompareFiles.loop]
  by_cases h : CompareBuffers XA XB uCachesSize = true
  · simp [h]
  · simp [h]


theorem read_buffers_eq_iff (RA RB F : List Byte) (hle : RA.length ≤ RB.length)
    (hlt : RA.length < 32000) (hF : F.length = 32000) :
    (RA.take 32000 ++ F.drop (RA.take 32000).length =
        RB.take 32000 ++ F.drop (RB.take 32000).length) ↔
      (∀ j, j < RA.length → RA.getD j 0 = RB.getD j 0) ∧
      (∀ i, RA.length ≤ i → i < RB.length → i < 32000 → RB.getD i 0 = F.getD i 0) := by
  constructor
  · intro H
    have H2 : ∀ j, (if j < min 32000 RA.length then RA.getD j 0 else F.getD j 0) =
        (if j < min 32000 RB.length then RB.getD j 0 else F.getD j 0) := by
      intro j
      rw [← getD_read, ← getD_read, H]
    constructor
    · intro j hj
      have := H2 j
      rwa [if_pos (by omega), if_pos (by omega)] at this
    · intro i h1 h2 h3
      have := H2 i
      rw [if_neg (by omega), if_pos (by omega)] at this
      exact this.symm
  · rintro ⟨H1, H2⟩
    apply getD_ext
    · rw [length_read _ _ _ hF, length_read _ _ _ hF]
    · intro j hj
      rw [length_read _ _ _ hF] at hj
      rw [getD_read, getD_read]
      by_cases c1 : j < RA.length
      · rw [if_pos (by omega), if_pos (by omega)]
        exact H1 j c1
      · by_cases c2 : j < RB.length
        · rw [if_neg (by omega), if_pos (by omega)]
          exact (H2 j (by omega) c2 hj).symm
        · rw [if_neg (by omega), if_neg (by omega)]

theorem stale_shift (RA F XA : List Byte) (i : Nat) (h1 : 32000 ≤ RA.length)
    (h2 : RA.length ≤ i) (h3 : i < 32000 * (RA.length / 32000 + 1)) :
    stale XA (RA.take 32000 ++ F.drop (RA.take 32000).length) (RA.drop 32000) (i - 32000) =
      stale F XA RA i := by
  have hd : (RA.drop 32000).length = RA.length - 32000 := List.length_drop _ _
  unfold stale
  rw [hd, if_neg (by omega : ¬ RA.length < 32000)]
  by_cases c1 : RA.length < 64000
  · rw [if_pos (by omega), if_pos c1]
  · rw [if_neg (by omega), if_neg c1]
    by_cases c2 : RA.length < 96000
    · rw [if_pos (by omega), getD_read, if_pos (by omega),
        show i - 32000 - 32000 = i - 64000 by omega]
    · rw [if_neg (by omega), getD_drop,
        show 32000 + (i - 32000 - 64000) = i - 64000 by omega]

theorem read_full_eq_iff (RA RB F : List Byte) (hA : 32000 ≤ RA.length)
    (hB : 32000 ≤ RB.length) (hF : F.length = 32000) :
    (RA.take 32000 ++ F.drop (RA.take 32000).length =
        RB.take 32000 ++ F.drop (RB.take 32000).length) ↔
      ∀ j, j < 32000 → RA.getD j 0 = RB.getD j 0 := by
  constructor
  · intro H j hj
    have : (RA.take 32000 ++ F.drop (RA.take 32000).length).getD j 0 =
        (RB.take 32000 ++ F.drop (RB.take 32000).length).getD j 0 := by rw [H]
    rwa [getD_read, getD_read, if_pos (by omega), if_pos (by omega)] at this
  · intro H
    apply getD_ext
    · rw [length_read _ _ _ hF, length_read _ _ _ hF]
    · intro j hj
      rw [length_read _ _ _ hF] at hj
      rw [getD_read, getD_read, if_pos (by omega), if_pos (by omega)]
      exact H j hj

theorem loop_spec (m : Nat) : ∀ (RA RB F XA XB : List Byte) (oA oB : Bool),
    RA.length = m → RA.length ≤ RB.length → F.length = 32000 → XA.length = 32000 →
    XB.length = 32000 →
    (((CompareFiles.loop ⟨oA, RA, false⟩ ⟨oB, RB, false⟩ F XA F XB).1 = true ∧
      CompareBuffers (CompareFiles.loop ⟨oA, RA, false⟩ ⟨oB, RB, false⟩ F XA F XB).2.1
        (CompareFiles.loop ⟨oA, RA, false⟩ ⟨oB, RB, false⟩ F XA F XB).2.2 32000 = true) ↔
      XA = XB ∧ (∀ j, j < RA.length → RA.getD j 0 = RB.getD j 0) ∧
        (∀ i, RA.length ≤ i → i < RB.length → i < 32000 * (RA.length / 32000 + 1) →
          RB.getD i 0 = stale F XA RA i)) := by
  induction m using Nat.strong_induction_on with
  | _ m ih =>
    intro RA RB F XA XB oA oB hm hle hF hXA hXB
    rw [loop_step, uCachesSize_eq]
    by_cases hX : XA = XB
    swap
    · have hc : ¬ CompareBuffers XA XB 32000 = true := by
        rw [CompareBuffers_full XA XB 32000 hXA hXB]; exact hX
      simp [hc, hX]
    subst hX
    have hc : CompareBuffers XA XA 32000 = true := by
      rw [CompareBuffers_full XA XA 32000 hXA hXA]
    simp only [hc, if_true, true_and, read_of_not_eof]
    by_cases hlt : RA.length < 32000
    · have e1 : decide ((RA.take 32000).length < 32000) = true := by
        simp [List.length_take]; omega
      rw [e1, loop_exit_left]
      simp only [true_and]
      rw [CompareBuffers_full _ _ 32000 (length_read _ _ _ hF) (length_read _ _ _ hF),
        read_buffers_eq_iff RA RB F hle hlt hF]
      have hdiv : RA.length / 32000 = 0 := by omega
      simp only [stale, hlt, if_true, hdiv]
    · have e1 : decide ((RA.take 32000).length < 32000) = false := by
        simp [List.length_take]; omega
      have e2 : decide ((RB.take 32000).length < 32000) = false := by
        simp [List.length_take]; omega
      rw [e1, e2]
      have hA : (RA.drop 32000).length = m - 32000 := by simp [hm]
      have hAB : (RA.drop 32000).length ≤ (RB.drop 32000).length := by simp; omega
      rw [ih (m - 32000) (by omega) (RA.drop 32000) (RB.drop 32000) XA _ _ oA oB hA hAB hXA
        (length_read _ _ _ hF) (length_read _ _ _ hF)]
      rw [read_full_eq_iff RA RB F (by omega) (by omega) hF]
      have hdA : (RA.drop 32000).length = RA.length - 32000 := List.length_drop _ _
      have hdB : (RB.drop 32000).length = RB.length - 32000 := List.length_drop _ _
      rw [hdA, hdB]
      constructor
      · rintro ⟨E, H1, H2⟩
        constructor
        · intro j hj
          by_cases c : j < 32000
          · exact E j c
          · have := H1 (j - 32000) (by omega)
            rw [getD_drop, getD_drop] at this
            rwa [show 32000 + (j - 32000) = j by omega] at this
        · intro i h1 h2 h3
          have := H2 (i - 32000) (by omega) (by omega) (by omega)
          rw [getD_drop, stale_shift RA F XA i (by omega) h1 h3] at this
          rwa [show 32000 + (i - 32000) = i by omega] at this
      · rintro ⟨G1, G2⟩
        refine ⟨fun j hj => G1 j (by omega), ?_, ?_⟩
        · intro j hj
          rw [getD_drop, getD_drop]
          exact G1 (32000 + j) (by omega)
        · intro i h1 h2 h3
          have := G2 (i + 32000) (by omega) (by omega) (by omega)
          rw [← stale_shift RA F XA (i + 32000) (by omega) (by omega) (by omega),
            Nat.add_sub_cancel] at this
          rw [getD_drop, show 32000 + i = i + 32000 by omega, this]


theorem getD_HeapAlloc (n k : Nat) : (HeapAlloc n).getD k 0 = 0 := by
  unfold HeapAlloc
  by_cases h : k < n
  · rw [List.getD_eq_getElem _ _ (by simpa using h)]
    simp
  · exact getD_beyond _ _ (by simp; omega)

theorem initial_iff_getD (A B : List Byte) (hle : A.length ≤ B.length) :
    (∀ j, j < A.length → A.getD j 0 = B.getD j 0) ↔ A = B.take A.length := by
  constructor
  · intro H
    apply getD_ext
    · simp [List.length_take]; omega
    · intro j hj
      rw [getD_take _ _ _ hj]
      exact H j hj
  · intro H j hj
    have : A.getD j 0 = (B.take A.length).getD j 0 := by rw [← H]
    rw [this, getD_take _ _ _ hj]

/-- The result of `CompareFiles.streams` on two freshly opened streams, the first one
holding at most as many bytes as the second. -/
theorem streams_iff (A B : List Byte) (oA oB : Bool) (hle : A.length ≤ B.length) :
    CompareFiles.streams ⟨oA, A, false⟩ ⟨oB, B, false⟩ = true ↔
      A = B.take A.length ∧
        ∀ i, A.length ≤ i → i < B.length → i < 32000 * (A.length / 32000 + 1) →
          B.getD i 0 = if A.length < 64000 then 0 else A.getD (i - 64000) 0 := by
  have hZ : (HeapAlloc 32000).length = 32000 := List.length_replicate _ _
  have hc : CompareBuffers (HeapAlloc 32000) (HeapAlloc 32000) 32000 = true := by
    rw [CompareBuffers_full _ _ 32000 hZ hZ]
  have hs := loop_step oA oB A B (HeapAlloc 32000) (HeapAlloc 32000) (HeapAlloc 32000)
    (HeapAlloc 32000)
  rw [uCachesSize_eq] at hs
  simp only [hc, if_true] at hs
  have key := loop_spec A.length A B (HeapAlloc 32000) (HeapAlloc 32000) (HeapAlloc 32000)
    oA oB rfl hle hZ hZ hZ
  rw [hs] at key
  unfold CompareFiles.streams
  simp only [uCachesSize_eq]
  rw [← initial_iff_getD A B hle]
  have e : ∀ i, stale (HeapAlloc 32000) (HeapAlloc 32000) A i =
      if A.length < 64000 then 0 else A.getD (i - 64000) 0 := by
    intro i
    unfold stale
    by_cases c1 : A.length < 32000
    · rw [if_pos c1, if_pos (by omega), getD_HeapAlloc]
    · rw [if_neg c1]
      by_cases c2 : A.length < 64000
      · rw [if_pos c2, if_pos c2, getD_HeapAlloc]
      · rw [if_neg c2, if_neg c2]
  simp only [e, true_and] at key
  rw [← key]
  generalize CompareFiles.loop _ _ _ _ _ _ = r
  cases h1 : r.1 <;> cases h2 : CompareBuffers r.2.1 r.2.2 32000 <;> simp

theorem CompareFiles_of_readable (fs : FileSystem) (pA pB : String) (A B : List Byte)
    (hA : fs.files pA = some ⟨A, true⟩) (hB : fs.files pB = some ⟨B, true⟩)
    (hle : A.length ≤ B.length) :
    CompareFiles fs pA pB = .ok (CompareFiles.streams ⟨true, A, false⟩ ⟨true, B, false⟩) := by
  have : ¬ (A.length > B.length) := by omega
  simp [CompareFiles, file_size, ifstream.open, hA, hB, this, bind, Except.bind, pure, Except.pure]


theorem length_replicate_snoc (n : Nat) (x y : Byte) :
    (List.replicate n x ++ [y]).length = n + 1 := by
  simp

theorem getD_replicate_snoc (n : Nat) (x y : Byte) :
    (List.replicate n x ++ [y]).getD n 0 = y := by
  rw [List.getD_append_right _ _ _ _ (by simp)]
  simp

/-! ## Properties of `CompareBuffers` and `CompareFiles` -/

/-- C4: for regions `a`, `b` holding at least `n` bytes, `CompareBuffers a b n` is true
exactly when `a[i] = b[i]` for every `i < n`; with length `0` it is true for any two
regions. -/
theorem CompareBuffers_correct (a b : List Byte) (n : Nat) (ha : n ≤ a.length)
    (hb : n ≤ b.length) :
    (CompareBuffers a b n = true ↔
      ∀ (i : Nat) (hi : i < n),
        a.get ⟨i, Nat.lt_of_lt_of_le hi ha⟩ = b.get ⟨i, Nat.lt_of_lt_of_le hi hb⟩) ∧
    (∀ a0 b0 : List Byte, CompareBuffers a0 b0 0 = true) := by
  constructor
  · rw [CompareBuffers_iff]
    constructor
    · intro H i hi
      have := H i hi
      rw [List.getD_eq_getElem _ _ (Nat.lt_of_lt_of_le hi ha),
        List.getD_eq_getElem _ _ (Nat.lt_of_lt_of_le hi hb)] at this
      simpa using this
    · intro H i hi
      rw [List.getD_eq_getElem _ _ (Nat.lt_of_lt_of_le hi ha),
        List.getD_eq_getElem _ _ (Nat.lt_of_lt_of_le hi hb)]
      simpa using H i hi
  · intro a0 b0
    rfl

theorem CompareBuffers_correct_witness :
    (CompareBuffers [1, 2, 3] [1, 2, 4] 2 = true ↔
      ∀ (i : Nat) (hi : i < 2),
        ([1, 2, 3] : List Byte).get ⟨i, Nat.lt_of_lt_of_le hi (by decide)⟩ =
          ([1, 2, 4] : List Byte).get ⟨i, Nat.lt_of_lt_of_le hi (by decide)⟩) ∧
    (∀ a0 b0 : List Byte, CompareBuffers a0 b0 0 = true) :=
  CompareBuffers_correct [1, 2, 3] [1, 2, 4] 2 (by decide) (by decide)

/-- C1: for two readable files of equal size, `CompareFiles` returns true exactly when
the two files hold the same bytes; a byte-exact copy gives true, and one differing
byte at any offset gives false. -/
theorem CompareFiles_equal_size (fs : FileSystem) (pA pB : String) (A B : List Byte)
    (hA : fs.files pA = some ⟨A, true⟩) (hB : fs.files pB = some ⟨B, true⟩)
    (hlen : A.length = B.length) :
    CompareFiles fs pA pB = .ok (decide (A = B)) ∧
    (A = B → CompareFiles fs pA pB = .ok true) ∧
    (∀ i, i < A.length → A.getD i 0 ≠ B.getD i 0 → CompareFiles fs pA pB = .ok false) := by
  have hle : A.length ≤ B.length := by omega
  have key : CompareFiles.streams ⟨true, A, false⟩ ⟨true, B, false⟩ = decide (A = B) := by
    rw [Bool.eq_iff_iff, streams_iff A B true true hle, decide_eq_true_iff]
    constructor
    · rintro ⟨H, _⟩
      rw [H, hlen, List.take_length]
    · intro H
      subst H
      exact ⟨by rw [List.take_length], fun i h1 h2 _ => absurd h2 (by omega)⟩
  rw [CompareFiles_of_readable fs pA pB A B hA hB hle, key]
  refine ⟨rfl, ?_, ?_⟩
  · intro H
    rw [decide_eq_true H]
  · intro i _ hne
    have : A ≠ B := fun e => hne (by rw [e])
    rw [decide_eq_false this]

theorem CompareFiles_equal_size_witness :
    (List.replicate 32000 7 ++ [1] : List Byte).length =
      (List.replicate 32000 7 ++ [2] : List Byte).length ∧
    CompareFiles (twoFiles (List.replicate 32000 7 ++ [1]) (List.replicate 32000 7 ++ [2]))
      "A" "B" = .ok false :=
  ⟨(length_replicate_snoc 32000 7 1).trans (length_replicate_snoc 32000 7 2).symm,
    (CompareFiles_equal_size
      (twoFiles (List.replicate 32000 7 ++ [1]) (List.replicate 32000 7 ++ [2])) "A" "B"
      (List.replicate 32000 7 ++ [1]) (List.replicate 32000 7 ++ [2]) rfl rfl
      ((length_replicate_snoc 32000 7 1).trans (length_replicate_snoc 32000 7 2).symm)).2.2
      32000 (by rw [length_replicate_snoc]; omega)
      (by rw [getD_replicate_snoc, getD_replicate_snoc]; decide)⟩


theorem CompareFiles_twoFiles (A B : List Byte) (hle : A.length ≤ B.length) :
    CompareFiles (twoFiles A B) "A" "B" =
      .ok (CompareFiles.streams ⟨true, A, false⟩ ⟨true, B, false⟩) :=
  CompareFiles_of_readable (twoFiles A B) "A" "B" A B rfl rfl hle

/-- C2, as stated, fails: the empty file equals the first zero bytes of the one-byte
file `[1]`, and `CompareFiles` returns false. -/
theorem CompareFiles_shorter_A_counterexample :
    ([] : List Byte).length ≤ ([1] : List Byte).length ∧
    ([] : List Byte) = ([1] : List Byte).take ([] : List Byte).length ∧
    CompareFiles (twoFiles [] [1]) "A" "B" = .ok false := by
  refine ⟨by decide, rfl, ?_⟩
  rw [CompareFiles_twoFiles [] [1] (by decide)]
  congr 1
  rw [Bool.eq_false_iff]
  intro h
  rw [streams_iff [] [1] true true (by decide)] at h
  have := h.2 0 (by decide) (by decide) (by decide)
  revert this
  decide

/-- C2, amended: for two readable files with `size(A) ≤ size(B)`, `CompareFiles` returns
a result; if it is true then the bytes of `A` equal the first `size(A)` bytes of `B`;
and when the two sizes are equal, identical content gives true. -/
theorem CompareFiles_true_imp_initial (fs : FileSystem) (pA pB : String) (A B : List Byte)
    (hA : fs.files pA = some ⟨A, true⟩) (hB : fs.files pB = some ⟨B, true⟩)
    (hle : A.length ≤ B.length) :
    ∃ r, CompareFiles fs pA pB = .ok r ∧ (r = true → A = B.take A.length) ∧
      (A.length = B.length → A = B → r = true) := by
  refine ⟨_, CompareFiles_of_readable fs pA pB A B hA hB hle, ?_, ?_⟩
  · intro h
    exact ((streams_iff A B true true hle).1 h).1
  · intro hlen H
    subst H
    rw [streams_iff A A true true hle]
    exact ⟨by rw [List.take_length], fun i h1 h2 _ => absurd h2 (by omega)⟩

theorem CompareFiles_true_imp_initial_witness :
    ([1] : List Byte).length ≤ ([2, 3] : List Byte).length ∧
    ∃ r, CompareFiles (twoFiles [1] [2, 3]) "A" "B" = .ok r ∧
      (r = true → ([1] : List Byte) = ([2, 3] : List Byte).take ([1] : List Byte).length) ∧
      (([1] : List Byte).length = ([2, 3] : List Byte).length →
        ([1] : List Byte) = [2, 3] → r = true) :=
  ⟨by decide, CompareFiles_true_imp_initial (twoFiles [1] [2, 3]) "A" "B" [1] [2, 3] rfl rfl
    (by decide)⟩

/-- C3: when both files exist and `size(A) > size(B)`, `CompareFiles` returns false
whatever the two files hold and whether or not they could be opened: the result is
fixed by the two sizes alone. -/
theorem CompareFiles_larger_A (fs : FileSystem) (pA pB : String) (nA nB : FileNode)
    (hA : fs.files pA = some nA) (hB : fs.files pB = some nB)
    (h : nB.content.length < nA.content.length) :
    CompareFiles fs pA pB = .ok false ∧
    ∀ (fs0 : FileSystem) (mA mB : FileNode), fs0.files pA = some mA → fs0.files pB = some mB →
      mA.content.length = nA.content.length → mB.content.length = nB.content.length →
      CompareFiles fs0 pA pB = CompareFiles fs pA pB := by
  have main : ∀ (fs0 : FileSystem) (mA mB : FileNode), fs0.files pA = some mA →
      fs0.files pB = some mB → mB.content.length < mA.content.length →
      CompareFiles fs0 pA pB = .ok false := by
    intro fs0 mA mB h1 h2 h3
    simp [CompareFiles, file_size, h1, h2, h3, bind, Except.bind, pure, Except.pure]
  refine ⟨main fs nA nB hA hB h, ?_⟩
  intro fs0 mA mB h1 h2 h3 h4
  rw [main fs nA nB hA hB h, main fs0 mA mB h1 h2 (by omega)]

theorem CompareFiles_larger_A_witness :
    (⟨[], true⟩ : FileNode).content.length < (⟨[1], false⟩ : FileNode).content.length ∧
    CompareFiles lockedA "A" "B" = .ok false :=
  ⟨by decide, (CompareFiles_larger_A lockedA "A" "B" ⟨[1], false⟩ ⟨[], true⟩ rfl rfl
    (by decide)).1⟩


/-- The result of `CompareFiles.streams` when the first stream holds less than one
buffer and no more than the second. -/
theorem streams_short_iff (A B : List Byte) (hle : A.length ≤ B.length)
    (hlt : A.length < 32000) :
    CompareFiles.streams ⟨true, A, false⟩ ⟨true, B, false⟩ = true ↔
      A = B.take A.length ∧
        ∀ i, A.length ≤ i → i < B.length → i < 32000 → B.getD i 0 = 0 := by
  rw [streams_iff A B true true hle]
  have hdiv : A.length / 32000 = 0 := by omega
  have h64 : A.length < 64000 := by omega
  simp only [hdiv, h64, if_true]

/-- C10: for two readable files with `size(A) < 32000` and `size(A) < size(B)`, stream
`A` is at end-of-file after the priming read, so the read loop leaves at its first
guard with the primed back buffers; `CompareFiles` returns true exactly when `A` is a
prefix of `B` and every byte of `B` at an offset in `[size(A), min(size(B), 32000))` is
zero; bytes of `B` from offset 32000 on do not change the result. The empty file
against the file `[0]` is reported identical, `[1]` against `[1, 2]` different. -/
theorem CompareFiles_short_A (fs : FileSystem) (pA pB : String) (A B : List Byte)
    (hA : fs.files pA = some ⟨A, true⟩) (hB : fs.files pB = some ⟨B, true⟩)
    (hlt : A.length < 32000) (hlen : A.length < B.length) :
    (((ifstream.open fs pA).read (HeapAlloc uCachesSize) uCachesSize).1.eof = true ∧
      ∀ (ifsB : ifstream) (FA XA FB XB : List Byte),
        CompareFiles.loop ((ifstream.open fs pA).read (HeapAlloc uCachesSize) uCachesSize).1
          ifsB FA XA FB XB = (true, XA, XB)) ∧
    (∃ r, CompareFiles fs pA pB = .ok r ∧
      (r = true ↔ A = B.take A.length ∧
        ∀ i, A.length ≤ i → i < B.length → i < 32000 → B.getD i 0 = 0)) ∧
    (∀ (fs0 : FileSystem) (pB0 : String) (B0 : List Byte),
      fs0.files pA = some ⟨A, true⟩ → fs0.files pB0 = some ⟨B0, true⟩ →
      B0.take 32000 = B.take 32000 → CompareFiles fs0 pA pB0 = CompareFiles fs pA pB) ∧
    CompareFiles (twoFiles [] [0]) "A" "B" = .ok true ∧
    CompareFiles (twoFiles [1] [1, 2]) "A" "B" = .ok false := by
  have hle : A.length ≤ B.length := by omega
  have hread : (ifstream.open fs pA).read (HeapAlloc uCachesSize) uCachesSize =
      (⟨true, A.drop 32000, true⟩,
        A.take 32000 ++ (HeapAlloc 32000).drop (A.take 32000).length) := by
    have : decide ((A.take 32000).length < 32000) = true := by
      simp [List.length_take]; omega
    simp only [ifstream.open, hA, if_true, uCachesSize_eq, read_of_not_eof, this]
  refine ⟨⟨by rw [hread], ?_⟩, ?_, ?_, ?_, ?_⟩
  · intro ifsB FA XA FB XB
    rw [hread]
    obtain ⟨oB, RB, e⟩ := ifsB
    exact loop_exit_left true oB _ RB FA XA FB XB e
  · exact ⟨_, CompareFiles_of_readable fs pA pB A B hA hB hle, streams_short_iff A B hle hlt⟩
  · intro fs0 pB0 B0 h1 h2 h3
    have hl : min 32000 B0.length = min 32000 B.length := by
      have := congrArg List.length h3
      simpa [List.length_take] using this
    have hle0 : A.length ≤ B0.length := by omega
    rw [CompareFiles_of_readable fs pA pB A B hA hB hle,
      CompareFiles_of_readable fs0 pA pB0 A B0 h1 h2 hle0]
    congr 1
    rw [Bool.eq_iff_iff, streams_short_iff A B0 hle0 hlt, streams_short_iff A B hle hlt]
    have hg : ∀ i, i < 32000 → B0.getD i 0 = B.getD i 0 := by
      intro i hi
      rw [← getD_take B0 32000 i hi, ← getD_take B 32000 i hi, h3]
    have ht : B0.take A.length = B.take A.length := by
      have := congrArg (List.take A.length) h3
      rwa [List.take_take, List.take_take, Nat.min_eq_left (by omega)] at this
    rw [ht]
    constructor
    · rintro ⟨H1, H2⟩
      exact ⟨H1, fun i a b c => by rw [← hg i c]; exact H2 i a (by omega) c⟩
    · rintro ⟨H1, H2⟩
      exact ⟨H1, fun i a b c => by rw [hg i c]; exact H2 i a (by omega) c⟩
  · rw [CompareFiles_twoFiles [] [0] (by decide)]
    congr 1
    rw [streams_short_iff [] [0] (by decide) (by decide)]
    refine ⟨rfl, ?_⟩
    intro i _ h2 _
    have : i = 0 := by simpa using h2
    subst this
    rfl
  · rw [CompareFiles_twoFiles [1] [1, 2] (by decide)]
    congr 1
    rw [Bool.eq_false_iff]
    intro h
    rw [streams_short_iff [1] [1, 2] (by decide) (by decide)] at h
    have := h.2 1 (by decide) (by decide) (by decide)
    revert this
    decide

theorem CompareFiles_short_A_witness :
    ([] : List Byte).length < 32000 ∧ ([] : List Byte).length < ([0] : List Byte).length ∧
    ∃ r, CompareFiles (twoFiles [] [0]) "A" "B" = .ok r ∧
      (r = true ↔ ([] : List Byte) = ([0] : List Byte).take ([] : List Byte).length ∧
        ∀ i, ([] : List Byte).length ≤ i → i < ([0] : List Byte).length → i < 32000 →
          ([0] : List Byte).getD i 0 = 0) :=
  ⟨by decide, by decide,
    (CompareFiles_short_A (twoFiles [] [0]) "A" "B" [] [0] rfl rfl (by decide) (by decide)).2.1⟩


/-! ## The worker -/

/-- The value `CompareFilesThreaded` leaves in `out`. -/
theorem CompareFilesThreaded_eq (fs : FileSystem) (fileA fileB out : String) :
    CompareFilesThreaded fs fileA fileB out =
      .ok (match CompareFiles fs fileA fileB with
        | .ok true => out
        | .ok false => fileA
        | .error e => e.what ++ ": " ++ fileA) := by
  unfold CompareFilesThreaded
  cases h : CompareFiles fs fileA fileB with
  | error e => rfl
  | ok b => cases b <;> rfl

theorem error_entry_ne (w p : String) : w ++ ": " ++ p ≠ "" ∧ w ++ ": " ++ p ≠ p := by
  have hl : (w ++ ": " ++ p).length = w.length + 2 + p.length := by
    rw [String.length_append, String.length_append]
    rfl
  constructor
  · intro h
    have := congrArg String.length h
    rw [hl] at this
    have h0 : ("" : String).length = 0 := rfl
    omega
  · intro h
    have := congrArg String.length h
    rw [hl] at this
    omega

/-- C6: `CompareFilesThreaded` always returns normally, and leaves `out` unchanged (so
empty, for an empty slot) when `CompareFiles` returns true, sets it to `fileA` when
`CompareFiles` returns false, and sets it to `what() ++ ": " ++ fileA` when
`CompareFiles` throws. -/
theorem CompareFilesThreaded_outcome (fs : FileSystem) (fileA fileB : String) :
    (∀ out, ∃ s, CompareFilesThreaded fs fileA fileB out = .ok s) ∧
    (CompareFiles fs fileA fileB = .ok true →
      ∀ out, CompareFilesThreaded fs fileA fileB out = .ok out) ∧
    (CompareFiles fs fileA fileB = .ok false →
      ∀ out, CompareFilesThreaded fs fileA fileB out = .ok fileA) ∧
    (∀ e, CompareFiles fs fileA fileB = .error e →
      ∀ out, CompareFilesThreaded fs fileA fileB out = .ok (e.what ++ ": " ++ fileA)) ∧
    CompareFilesThreaded fs fileA fileB "" =
      .ok (match CompareFiles fs fileA fileB with
        | .ok true => ""
        | .ok false => fileA
        | .error e => e.what ++ ": " ++ fileA) := by
  refine ⟨fun out => ⟨_, CompareFilesThreaded_eq fs fileA fileB out⟩, ?_, ?_, ?_,
    CompareFilesThreaded_eq fs fileA fileB ""⟩
  · intro h out
    rw [CompareFilesThreaded_eq, h]
  · intro h out
    rw [CompareFilesThreaded_eq, h]
  · intro e h out
    rw [CompareFilesThreaded_eq, h]

/-- C5, as stated, fails: the file at `"A"` cannot be opened, it is larger than the file
at `"B"`, and the worker leaves the plain entry `"A"`, which is not of the form
`<description>: A`. -/
theorem CompareFilesThreaded_unopenable_counterexample :
    (ifstream.open lockedA "A").is_open = false ∧
    CompareFilesThreaded lockedA "A" "B" "" = .ok "A" ∧
    ¬ ∃ d : String, CompareFilesThreaded lockedA "A" "B" "" = .ok (d ++ ": " ++ "A") := by
  have h : CompareFilesThreaded lockedA "A" "B" "" = .ok "A" := rfl
  refine ⟨rfl, h, ?_⟩
  rintro ⟨d, hd⟩
  rw [h] at hd
  injection hd with hd
  exact (error_entry_ne d "A").2 hd.symm

/-- C5, amended: when either file cannot be opened for reading, the worker produces the
error entry `what() ++ ": " ++ pathA` (not empty, and not the plain `pathA`) unless both
sizes can be queried and `size(A) > size(B)`; in that case the size check answers first
and the worker leaves the plain entry `pathA`. -/
theorem CompareFilesThreaded_unopenable (fs : FileSystem) (pA pB : String)
    (hopen : (ifstream.open fs pA).is_open = false ∨ (ifstream.open fs pB).is_open = false) :
    ((∀ a b, file_size fs pA = .ok a → file_size fs pB = .ok b → a ≤ b) →
      ∃ e, CompareFiles fs pA pB = .error e ∧
        CompareFilesThreaded fs pA pB "" = .ok (e.what ++ ": " ++ pA) ∧
        e.what ++ ": " ++ pA ≠ "" ∧ e.what ++ ": " ++ pA ≠ pA) ∧
    (∀ a b, file_size fs pA = .ok a → file_size fs pB = .ok b → b < a →
      CompareFiles fs pA pB = .ok false ∧ CompareFilesThreaded fs pA pB "" = .ok pA) := by
  have fin : ∀ e, CompareFiles fs pA pB = .error e →
      ∃ e, CompareFiles fs pA pB = .error e ∧
        CompareFilesThreaded fs pA pB "" = .ok (e.what ++ ": " ++ pA) ∧
        e.what ++ ": " ++ pA ≠ "" ∧ e.what ++ ": " ++ pA ≠ pA := by
    intro e he
    refine ⟨e, he, ?_, (error_entry_ne _ _).1, (error_entry_ne _ _).2⟩
    rw [CompareFilesThreaded_eq, he]
  constructor
  · intro hs
    cases hA : fs.files pA with
    | none =>
      apply fin (.filesystem_error (fs.errorText pA))
      simp [CompareFiles, file_size, hA, bind, Except.bind]
    | some nA =>
      cases hB : fs.files pB with
      | none =>
        apply fin (.filesystem_error (fs.errorText pB))
        simp [CompareFiles, file_size, hA, hB, bind, Except.bind]
      | some nB =>
        have hle : ¬ nA.content.length > nB.content.length := by
          have := hs nA.content.length nB.content.length (by simp [file_size, hA])
            (by simp [file_size, hB])
          omega
        by_cases rA : nA.readable = true
        · have rB : nB.readable = false := by
            rcases hopen with h | h
            · simp [ifstream.open, hA, rA] at h
            · by_cases c : nB.readable = true
              · simp [ifstream.open, hB, c] at h
              · simpa using c
          apply fin (.invalid_argument "Path to file B was invalid.")
          simp [CompareFiles, file_size, ifstream.open, hA, hB, hle, rA, rB, bind, Except.bind,
            pure, Except.pure, throw, throwThe, MonadExceptOf.throw]
        · have rA0 : nA.readable = false := by simpa using rA
          apply fin (.invalid_argument "Path to file A was invalid.")
          simp [CompareFiles, file_size, ifstream.open, hA, hB, hle, rA0, bind, Except.bind,
            pure, Except.pure, throw, throwThe, MonadExceptOf.throw]
  · intro a b ha hb hlt
    have hc : CompareFiles fs pA pB = .ok false := by
      cases hA : fs.files pA with
      | none => simp [file_size, hA] at ha
      | some nA =>
        cases hB : fs.files pB with
        | none => simp [file_size, hB] at hb
        | some nB =>
          simp [file_size, hA] at ha
          simp [file_size, hB] at hb
          subst ha hb
          simp [CompareFiles, file_size, hA, hB, hlt, bind, Except.bind, pure, Except.pure]
    refine ⟨hc, ?_⟩
    rw [CompareFilesThreaded_eq, hc]

theorem CompareFilesThreaded_unopenable_witness :
    (ifstream.open lockedA "A").is_open = false ∧
    ∃ e, CompareFiles lockedA "B" "A" = .error e ∧
      CompareFilesThreaded lockedA "B" "A" "" = .ok (e.what ++ ": " ++ "B") ∧
      e.what ++ ": " ++ "B" ≠ "" ∧ e.what ++ ": " ++ "B" ≠ "B" :=
  ⟨rfl, (CompareFilesThreaded_unopenable lockedA "B" "A" (Or.inr rfl)).1
    (fun a b ha hb => by
      simp [file_size, lockedA] at ha hb
      omega)⟩


/-! ## The directory drivers -/

theorem length_pos_of_ne_empty (s : String) (h : s ≠ "") : 0 < s.length := by
  rcases s with ⟨d⟩
  cases d with
  | nil => exact absurd rfl h
  | cons c cs => simp [String.length]

theorem tmpFullPathA_ne_empty (dirA file : String) (h : dirA ≠ "") :
    tmpFullPathA dirA file ≠ "" := by
  intro e
  have := congrArg String.length e
  unfold tmpFullPathA at this
  rw [String.length_append, String.length_append] at this
  have h1 := length_pos_of_ne_empty dirA h
  have h0 : ("" : String).length = 0 := rfl
  omega

theorem slotOf_eq_empty_iff (fs : FileSystem) (dirA dirB file : String) (h : dirA ≠ "") :
    slotOf fs dirA dirB file = "" ↔
      CompareFiles fs (tmpFullPathA dirA file) (tmpFullPathB dirA dirB file) = .ok true := by
  unfold slotOf
  cases hc : CompareFiles fs (tmpFullPathA dirA file) (tmpFullPathB dirA dirB file) with
  | error e => simpa using (error_entry_ne _ _).1
  | ok b =>
    cases b with
    | true => simp
    | false => simpa using tmpFullPathA_ne_empty dirA file h

theorem threads_eq (fs : FileSystem) (dirA dirB : String) (files done : List String) :
    CompareDirectoriesThreaded.threads fs dirA dirB files done.length
        (done ++ files.map (fun _ => "")) =
      .ok (done ++ files.map (slotOf fs dirA dirB)) := by
  induction files generalizing done with
  | nil => simp [CompareDirectoriesThreaded.threads]
  | cons file files ih =>
    have hget : (done ++ List.map (fun _ => "") (file :: files)).getD done.length "" = "" := by
      rw [List.getD_append_right _ _ _ _ (le_refl _)]
      simp
    have hset : (done ++ List.map (fun _ => "") (file :: files)).set done.length
          (slotOf fs dirA dirB file) =
        (done ++ [slotOf fs dirA dirB file]) ++ files.map (fun _ => "") := by
      rw [List.set_append_right _ _ (le_refl _)]
      simp
    have hw : CompareFilesThreaded fs (tmpFullPathA dirA file) (tmpFullPathB dirA dirB file) "" =
        .ok (slotOf fs dirA dirB file) := CompareFilesThreaded_eq _ _ _ _
    have := ih (done ++ [slotOf fs dirA dirB file])
    rw [List.length_append, List.length_singleton] at this
    simp only [CompareDirectoriesThreaded.threads, hget, hw, bind, Except.bind, hset, this]
    simp

theorem slots_eq (fs : FileSystem) (dirA dirB : String) (entries : List String)
    (hdir : directory_iterator fs dirA = .ok entries) :
    CompareDirectoriesThreaded.slots fs dirA dirB = .ok (entries.map (slotOf fs dirA dirB)) := by
  have := threads_eq fs dirA dirB entries []
  simp only [List.length_nil, List.nil_append] at this
  simp only [CompareDirectoriesThreaded.slots, hdir, bind, Except.bind, this]

theorem CompareDirectoriesThreaded_eq (fs : FileSystem) (dirA dirB : String)
    (entries : List String) (hdir : directory_iterator fs dirA = .ok entries) :
    CompareDirectoriesThreaded fs dirA dirB =
      .ok ((entries.map (slotOf fs dirA dirB)).filter (fun s => !s.isEmpty)) := by
  simp only [CompareDirectoriesThreaded, slots_eq fs dirA dirB entries hdir, bind, Except.bind,
    pure, Except.pure]

theorem CompareDirectories.loop_eq (fs : FileSystem) (dirA dirB : String) (hne : dirA ≠ "")
    (files result : List String) :
    CompareDirectories.loop fs dirA dirB files result =
      .ok (result ++ (files.map (slotOf fs dirA dirB)).filter (fun s => !s.isEmpty)) := by
  induction files generalizing result with
  | nil => simp [CompareDirectories.loop]
  | cons file files ih =>
    cases hc : CompareFiles fs (tmpFullPathA dirA file) (tmpFullPathB dirA dirB file) with
    | error e =>
      have hslot : slotOf fs dirA dirB file = e.what ++ ": " ++ tmpFullPathA dirA file := by
        unfold slotOf; rw [hc]
      have hne2 : (e.what ++ ": " ++ tmpFullPathA dirA file).isEmpty = false := by
        rw [Bool.eq_false_iff, ne_eq, String.isEmpty_iff]
        exact (error_entry_ne _ _).1
      simp only [CompareDirectories.loop, List.map_cons, List.filter_cons, hslot, hc, tryCatch,
        tryCatchThe, MonadExceptOf.tryCatch, Except.tryCatch, bind, Except.bind, pure,
        Except.pure, ih, hne2, String.empty_append]
      simp
    | ok b =>
      cases b with
      | true =>
        have hslot : slotOf fs dirA dirB file = "" := by
          unfold slotOf; rw [hc]
        have he : ("" : String).isEmpty = true := rfl
        simp only [CompareDirectories.loop, List.map_cons, List.filter_cons, hslot, hc, tryCatch,
          tryCatchThe, MonadExceptOf.tryCatch, Except.tryCatch, bind, Except.bind, pure,
          Except.pure, ih, he]
        simp
      | false =>
        have hslot : slotOf fs dirA dirB file = tmpFullPathA dirA file := by
          unfold slotOf; rw [hc]
        have hne2 : (tmpFullPathA dirA file).isEmpty = false := by
          rw [Bool.eq_false_iff, ne_eq, String.isEmpty_iff]
          exact tmpFullPathA_ne_empty dirA file hne
        simp only [CompareDirectories.loop, List.map_cons, List.filter_cons, hslot, hc, tryCatch,
          tryCatchThe, MonadExceptOf.tryCatch, Except.tryCatch, bind, Except.bind, pure,
          Except.pure, ih, hne2]
        simp


theorem directory_iterator_ne_empty (fs : FileSystem) (dirA : String) (entries : List String)
    (h : directory_iterator fs dirA = .ok entries) : dirA ≠ "" := by
  intro e
  simp [directory_iterator, e] at h

/-- C7: for a directory `A` with a non-empty path, `CompareDirectoriesThreaded` fills one
slot per entry, the slot of an entry holding what its worker left; a slot is empty
exactly when `CompareFiles` returned true for that entry; and the report is, in
enumeration order, the slot of every entry whose comparison did not return true, so
its length is the number of those entries. -/
theorem CompareDirectoriesThreaded_complete (fs : FileSystem) (dirA dirB : String)
    (entries : List String) (hdir : fs.dirs dirA = some entries) (hne : dirA ≠ "") :
    CompareDirectoriesThreaded.slots fs dirA dirB = .ok (entries.map (slotOf fs dirA dirB)) ∧
    (entries.map (slotOf fs dirA dirB)).length = entries.length ∧
    (∀ file, CompareFilesThreaded fs (tmpFullPathA dirA file) (tmpFullPathB dirA dirB file) "" =
      .ok (slotOf fs dirA dirB file)) ∧
    (∀ file, slotOf fs dirA dirB file = "" ↔
      CompareFiles fs (tmpFullPathA dirA file) (tmpFullPathB dirA dirB file) = .ok true) ∧
    CompareDirectoriesThreaded fs dirA dirB =
      .ok ((entries.filter (fun file => decide
        (CompareFiles fs (tmpFullPathA dirA file) (tmpFullPathB dirA dirB file) ≠ .ok true))).map
          (slotOf fs dirA dirB)) ∧
    ((entries.filter (fun file => decide
        (CompareFiles fs (tmpFullPathA dirA file) (tmpFullPathB dirA dirB file) ≠ .ok true))).map
          (slotOf fs dirA dirB)).length =
      entries.countP (fun file => decide
        (CompareFiles fs (tmpFullPathA dirA file) (tmpFullPathB dirA dirB file) ≠ .ok true)) := by
  have hd : directory_iterator fs dirA = .ok entries := by
    simp [directory_iterator, hne, hdir]
  refine ⟨slots_eq fs dirA dirB entries hd, List.length_map _ _,
    fun file => CompareFilesThreaded_eq _ _ _ _,
    fun file => slotOf_eq_empty_iff fs dirA dirB file hne, ?_, ?_⟩
  · rw [CompareDirectoriesThreaded_eq fs dirA dirB entries hd, List.filter_map]
    congr 2
    apply List.filter_congr
    intro file _
    have := slotOf_eq_empty_iff fs dirA dirB file hne
    rw [← String.isEmpty_iff] at this
    by_cases c : CompareFiles fs (tmpFullPathA dirA file) (tmpFullPathB dirA dirB file) = .ok true
    · simp [c, this.2 c]
    · have : (slotOf fs dirA dirB file).isEmpty = false := by
        rw [Bool.eq_false_iff]
        exact fun h => c (this.1 h)
      simp [c, this]
  · rw [List.length_map, List.countP_eq_length_filter]

theorem CompareDirectoriesThreaded_complete_witness :
    ("a\\" : String) ≠ "" ∧
    CompareDirectoriesThreaded.slots mirrored "a\\" "b" =
      .ok ((["x"] : List String).map (slotOf mirrored "a\\" "b")) :=
  ⟨by decide, (CompareDirectoriesThreaded_complete mirrored "a\\" "b" ["x"] rfl (by decide)).1⟩

/-- C8 fails on the code: with `dirA = a\` and `dirB = b` the path built for side B of
the entry `x` is `bx`, with no separator, although `b` does not end with one; with
`dirA = a` and `dirB = b\` it is `b\\x`, with two. Both drivers take the separator of
side B from `dirA`. On a file system where `a\x` and `b\x` are equal files the
sequential and the threaded driver therefore report an error for `a\x`. -/
theorem tmpFullPathB_separator_from_dirA :
    tmpFullPathA "a\\" "x" = "a\\x" ∧
    ("b" : String).back ≠ '\\' ∧
    tmpFullPathB "a\\" "b" "x" = "bx" ∧
    tmpFullPathB "a\\" "b" "x" ≠ "b" ++ "\\" ++ "x" ∧
    ("b\\" : String).back = '\\' ∧
    tmpFullPathB "a" "b\\" "x" = "b\\\\x" ∧
    tmpFullPathB "a" "b\\" "x" ≠ "b\\" ++ "x" ∧
    CompareDirectories mirrored "a\\" "b" = .ok ["no such file: a\\x"] ∧
    CompareDirectoriesThreaded mirrored "a\\" "b" = .ok ["no such file: a\\x"] := by
  refine ⟨by decide, by decide, by decide, by decide, by decide, by decide, by decide, rfl, rfl⟩

/-- C9: on one file-system state the sequential driver `CompareDirectories` and the
threaded driver `CompareDirectoriesThreaded` give the same result: the same report
entries in the same (enumeration) order, or the same exception from the directory
enumeration. -/
theorem CompareDirectories_eq_threaded (fs : FileSystem) (dirA dirB : String) :
    CompareDirectories fs dirA dirB = CompareDirectoriesThreaded fs dirA dirB := by
  cases hd : directory_iterator fs dirA with
  | error e =>
    simp [CompareDirectories, CompareDirectoriesThreaded, CompareDirectoriesThreaded.slots, hd,
      bind, Except.bind]
  | ok entries =>
    have hne := directory_iterator_ne_empty fs dirA entries hd
    rw [CompareDirectoriesThreaded_eq fs dirA dirB entries hd]
    have := CompareDirectories.loop_eq fs dirA dirB hne entries []
    simp only [List.nil_append] at this
    simp only [CompareDirectories, hd, bind, Except.bind, this]

end MassFilesCompare
